import Mathlib

/-!
Verification development for a small HTTP measurement service (Flask app in
src/app.py).  The service records time-stamped numeric measurements in a
relational store and exposes endpoints to add (GET query or POST JSON body),
list (order and limit parameters) and delete measurements.

The embedding below translates the request handlers of src/app.py into pure
Lean functions.  Wall-clock time is passed explicitly as a parameter.  The
relational store is modelled as a list of rows plus an id counter; numeric
values are represented by their validated source string, since no statement
proved here depends on floating-point arithmetic, only on whether parsing
succeeds and on equality of results produced from identical inputs.
-/

/-- Naive local date-time, as produced by datetime.strptime without a zone. -/
structure DateTime where
  year : Nat
  month : Nat
  day : Nat
  hour : Nat
  minute : Nat
  second : Nat
deriving DecidableEq, Repr

/-- Digit value of an ASCII digit character. -/
def dval (c : Char) : Nat := c.toNat - 48

/-- Parse exactly four ASCII digits (the %Y directive of strptime). -/
def parse4 : List Char → Option (Nat × List Char)
  | a :: b :: c :: d :: rest =>
    if a.isDigit && b.isDigit && c.isDigit && d.isDigit then
      some ((((dval a) * 10 + dval b) * 10 + dval c) * 10 + dval d, rest)
    else none
  | _ => none

/-- Parse one or two ASCII digits; a two-digit match must not exceed
maxTwo, mirroring the alternations strptime compiles for %m, %d, %H, %M
and %S (a two-digit overshoot cannot fall back to one digit because the
following pattern element is a non-digit literal or the end check). -/
def parse12 (maxTwo : Nat) : List Char → Option (Nat × List Char)
  | [] => none
  | a :: rest =>
    if a.isDigit then
      match rest with
      | b :: rest2 =>
        if b.isDigit then
          if dval a * 10 + dval b ≤ maxTwo then some (dval a * 10 + dval b, rest2)
          else none
        else some (dval a, b :: rest2)
      | [] => some (dval a, [])
    else none

/-- Consume one expected literal character. -/
def expectChar (c : Char) : List Char → Option (List Char)
  | x :: rest => if x = c then some rest else none
  | [] => none

/-- ASCII whitespace as matched by the regex class strptime uses for a
blank in the format string. -/
def isPySpace (c : Char) : Bool :=
  c = ' ' || c = '\t' || c = '\n' || c = '\r' || c = '\x0b' || c = '\x0c'

/-- Drop leading whitespace characters. -/
def skipWsRest : List Char → List Char
  | [] => []
  | c :: rest => if isPySpace c then skipWsRest rest else c :: rest

/-- Require at least one whitespace character, then drop the whole run
(strptime compiles a blank in the format to one-or-more whitespace). -/
def skipWs1 : List Char → Option (List Char)
  | [] => none
  | c :: rest => if isPySpace c then some (skipWsRest rest) else none

/-- Gregorian leap-year rule used by datetime. -/
def isLeap (y : Nat) : Bool := (y % 4 = 0 && y % 100 ≠ 0) || y % 400 = 0

/-- Number of days of a month, as validated by the datetime constructor. -/
def daysInMonth (y m : Nat) : Nat :=
  if m = 2 then (if isLeap y then 29 else 28)
  else if m = 4 || m = 6 || m = 9 || m = 11 then 30
  else 31

/-- Validation performed by the datetime constructor after strptime has
matched the text: month 1..12, day within the month, hour 0..23, minute
0..59, second 0..59 (a matched leap second 60 or 61 is rejected here),
year at least MINYEAR = 1. -/
def mkDT (y mo d h mi s : Nat) : Option DateTime :=
  if 1 ≤ y && 1 ≤ mo && mo ≤ 12 && 1 ≤ d && d ≤ daysInMonth y mo
      && h ≤ 23 && mi ≤ 59 && s ≤ 59 then
    some ⟨y, mo, d, h, mi, s⟩
  else none

/-- Parse the %Y-%m-%d part shared by both accepted formats. -/
def parseDatePart (cs : List Char) : Option (Nat × Nat × Nat × List Char) :=
  match parse4 cs with
  | none => none
  | some (y, r1) =>
    match expectChar '-' r1 with
    | none => none
    | some r2 =>
      match parse12 12 r2 with
      | none => none
      | some (mo, r3) =>
        match expectChar '-' r3 with
        | none => none
        | some r4 =>
          match parse12 31 r4 with
          | none => none
          | some (d, r5) => some (y, mo, d, r5)

/-- Parse the %H:%M:%S part shared by both accepted formats.  The second
field may match 60 or 61 textually (leap seconds in the %S alternation);
the datetime validation in mkDT rejects those values afterwards. -/
def parseTimePart (cs : List Char) : Option (Nat × Nat × Nat × List Char) :=
  match parse12 23 cs with
  | none => none
  | some (h, r1) =>
    match expectChar ':' r1 with
    | none => none
    | some r2 =>
      match parse12 59 r2 with
      | none => none
      | some (mi, r3) =>
        match expectChar ':' r3 with
        | none => none
        | some r4 =>
          match parse12 61 r4 with
          | none => none
          | some (s, r5) => some (h, mi, s, r5)

/-- Model of datetime.strptime(text, "%Y-%m-%d %H:%M:%S"): the entire
string must be consumed, the blank matches a run of whitespace, and the
constructor validation applies. -/
def strptimeF1 (s : String) : Option DateTime :=
  match parseDatePart s.data with
  | none => none
  | some (y, mo, d, r) =>
    match skipWs1 r with
    | none => none
    | some r2 =>
      match parseTimePart r2 with
      | none => none
      | some (h, mi, sec, rest) =>
        if rest = [] then mkDT y mo d h mi sec else none

/-- Separator of the second format: the literal T, case-insensitively
because strptime compiles its pattern with IGNORECASE. -/
def sepT : List Char → Option (List Char)
  | [] => none
  | c :: rest => if c = 'T' || c = 't' then some rest else none

/-- Model of datetime.strptime(text, "%Y-%m-%dT%H:%M:%S"). -/
def strptimeF2 (s : String) : Option DateTime :=
  match parseDatePart s.data with
  | none => none
  | some (y, mo, d, r) =>
    match sepT r with
    | none => none
    | some r2 =>
      match parseTimePart r2 with
      | none => none
      | some (h, mi, sec, rest) =>
        if rest = [] then mkDT y mo d h mi sec else none

/-- Timestamp parsing of both handlers: the space-separated format is
tried first, then the T-separated one (src/app.py lines 74-80 and
120-126). -/
def parseTs (s : String) : Option DateTime :=
  match strptimeF1 s with
  | some t => some t
  | none => strptimeF2 s

/-- Zero-pad a number to two digits, as strftime %m %d %H %M %S do. -/
def pad2 (n : Nat) : String := if n < 10 then "0" ++ toString n else toString n

/-- Zero-pad a year to four digits, as strftime %Y does. -/
def pad4 (n : Nat) : String :=
  if n < 10 then "000" ++ toString n
  else if n < 100 then "00" ++ toString n
  else if n < 1000 then "0" ++ toString n
  else toString n

/-- Model of timestamp.strftime("%Y-%m-%d %H:%M:%S"), the output format
used by every handler. -/
def formatTs (t : DateTime) : String :=
  pad4 t.year ++ "-" ++ pad2 t.month ++ "-" ++ pad2 t.day ++ " "
    ++ pad2 t.hour ++ ":" ++ pad2 t.minute ++ ":" ++ pad2 t.second

/-- Drop a leading run of ASCII digits. -/
def digitsRest : List Char → List Char
  | [] => []
  | c :: rest => if c.isDigit then digitsRest rest else c :: rest

/-- Consume a nonempty run of ASCII digits. -/
def digits1 : List Char → Option (List Char)
  | [] => none
  | c :: rest => if c.isDigit then some (digitsRest rest) else none

/-- Drop an optional leading sign, as float() accepts. -/
def parseSign : List Char → List Char
  | [] => []
  | c :: rest => if c = '+' || c = '-' then rest else c :: rest

/-- Optional exponent part of a float literal: if an e or E is present it
must be followed by an optionally signed digit run. -/
def floatExp : List Char → Option (List Char)
  | [] => some []
  | c :: rest =>
    if c = 'e' || c = 'E' then digits1 (parseSign rest)
    else some (c :: rest)

/-- Mantissa of a float literal: digits with an optional fraction, or a
fraction alone, followed by an optional exponent. -/
def floatBody (cs : List Char) : Option (List Char) :=
  match digits1 cs with
  | some r =>
    match r with
    | '.' :: rr => floatExp (digitsRest rr)
    | _ => floatExp r
  | none =>
    match cs with
    | '.' :: rr =>
      match digits1 rr with
      | some r2 => floatExp r2
      | none => none
    | _ => none

/-- Lower-case an ASCII letter. -/
def asciiLower (c : Char) : Char :=
  if 'A' ≤ c && c ≤ 'Z' then Char.ofNat (c.toNat + 32) else c

/-- Match a literal word case-insensitively. -/
def matchLit : List Char → List Char → Option (List Char)
  | cs, [] => some cs
  | [], _ :: _ => none
  | c :: cs, l :: ls => if asciiLower c = l then matchLit cs ls else none

/-- Special float words inf, infinity and nan, matched case-insensitively
by float(). -/
def infNan (cs : List Char) : Option (List Char) :=
  match matchLit cs ['i', 'n', 'f', 'i', 'n', 'i', 't', 'y'] with
  | some r => some r
  | none =>
    match matchLit cs ['i', 'n', 'f'] with
    | some r => some r
    | none => matchLit cs ['n', 'a', 'n']

/-- Model of the acceptance test of Python float(string): surrounding
whitespace, an optional sign, then a numeric literal or a special word
(ASCII subset; the exact extent of the accepted language is not load
bearing for any claim, both handlers share this single function exactly as
they share float in the source). -/
def isFloatLit (s : String) : Bool :=
  let cs := parseSign (skipWsRest s.data)
  match (match floatBody cs with | some r => some r | none => infNan cs) with
  | some r => skipWsRest r = []
  | none => false

/-- Model of float(string) in both handlers.  The parsed value is
represented by its source string: no claim depends on float arithmetic,
only on parse success and on equality of values built from equal input. -/
def pyFloat (s : String) : Option String :=
  if isFloatLit s then some s else none

/-- Persisted measurement row (model of the Measurement ORM class). -/
structure Measurement where
  id : Nat
  timestamp : DateTime
  value : String
deriving DecidableEq, Repr

/-- Store state: the measurements table plus the id counter.  Modelled
from the spec: id assignment happens inside the external relational
store; the spec fixes it as a unique, monotonically increasing, never
reused integer, so the model keeps an explicit counter that only grows. -/
structure Store where
  rows : List Measurement
  nextId : Nat
deriving DecidableEq, Repr

/-- Empty store as created on startup; the first assigned id is 1. -/
def initStore : Store := ⟨[], 1⟩

/-- Serialized record of a measurement as every JSON response renders it. -/
structure RecordOut where
  id : Nat
  timestamp : String
  value : String
deriving DecidableEq, Repr

/-- Error classes of the 400 responses; each constructor corresponds to
one literal message in src/app.py (missing value parameter, non-numeric
value, invalid timestamp format, invalid or empty JSON body). -/
inductive ErrClass where
  | emptyJson
  | missingValue
  | valueNotNumeric
  | badTimestamp
deriving DecidableEq, Repr

/-- Possible responses of the handlers, tagged by their HTTP status:
created is 201, err400 is 400, okList and okDeleted are 200, notFound is
404, serverError is an uncaught exception (500). -/
inductive Response where
  | created (rec : RecordOut)
  | err400 (cls : ErrClass)
  | okList (recs : List RecordOut)
  | okDeleted (id : Nat)
  | notFound
  | serverError
deriving DecidableEq, Repr

/-- Shared insert-and-serialize tail of both add handlers (src/app.py
lines 84-94 and 130-138): build the row, commit it, respond 201 with the
id, the formatted timestamp and the value. -/
def insertRow (st : Store) (t : DateTime) (value : String) : Response × Store :=
  (.created ⟨st.nextId, formatTs t, value⟩, ⟨st.rows ++ [⟨st.nextId, t, value⟩], st.nextId + 1⟩)

/-- Handler of GET /api/measurements/add (src/app.py lines 45-94).  The
two query parameters arrive as optional strings; now is the wall clock. -/
def add_measurement_via_get (st : Store) (now : DateTime) (val_str ts_str : Option String) :
    Response × Store :=
  match val_str with
  | none => (.err400 .missingValue, st)
  | some v =>
    match pyFloat v with
    | none => (.err400 .valueNotNumeric, st)
    | some value =>
      match ts_str with
      | none => insertRow st now value
      | some ts =>
        if ts = "" then insertRow st now value
        else
          match parseTs ts with
          | some t => insertRow st t value
          | none => (.err400 .badTimestamp, st)

/-- JSON documents as decoded by request.get_json (numbers restricted to
integers; no claim involves a non-integer JSON number). -/
inductive Json where
  | null
  | bool (b : Bool)
  | num (n : Int)
  | str (s : String)
  | arr (elems : List Json)
  | obj (fields : List (String × Json))

/-- Python truthiness of a decoded JSON document. -/
def jsonFalsy : Json → Bool
  | .null => true
  | .bool b => !b
  | .num n => n == 0
  | .str s => s == ""
  | .arr l => l.isEmpty
  | .obj l => l.isEmpty

/-- Dictionary lookup; on duplicate keys the json module keeps the last
occurrence. -/
def objGet (fields : List (String × Json)) (k : String) : Option Json :=
  match fields.reverse.find? (fun p => p.1 == k) with
  | some p => some p.2
  | none => none

/-- Python float() applied to a decoded JSON value: strings are parsed,
numbers and booleans convert, anything else raises TypeError which the
handler catches alongside ValueError. -/
def pyFloatJson : Json → Option String
  | .str s => pyFloat s
  | .num n => some (toString n)
  | .bool b => some (if b then "1.0" else "0.0")
  | _ => none

/-- Substring test, modelling the Python in operator on strings. -/
def startsWithChars : List Char → List Char → Bool
  | _, [] => true
  | [], _ :: _ => false
  | h :: t, nh :: nt => h == nh && startsWithChars t nt

/-- Containment of a needle anywhere in a haystack. -/
def hasSub (needle : List Char) : List Char → Bool
  | [] => startsWithChars [] needle
  | c :: rest => startsWithChars (c :: rest) needle || hasSub needle rest

/-- Python membership of the word value in a decoded JSON string. -/
def pyStrContains (hay sub : String) : Bool := hasSub sub.data hay.data

/-- List element equal to the string value, as Python == compares a str
against decoded JSON elements. -/
def jsonIsValueStr : Json → Bool
  | .str s => s == "value"
  | _ => false

/-- Handler of POST /api/measurements (src/app.py lines 97-138).  The
body is the decoded JSON document; none models a body get_json could not
decode.  A truthy non-dict body reaches the subscript data paths, where a
positive membership test makes the subscript raise an uncaught TypeError
(serverError); truthy numbers and booleans make the membership test
itself raise. -/
def create_measurement (st : Store) (now : DateTime) (body : Option Json) :
    Response × Store :=
  match body with
  | none => (.err400 .emptyJson, st)
  | some data =>
    if jsonFalsy data then (.err400 .emptyJson, st)
    else
      match data with
      | .obj kvs =>
        match objGet kvs "value" with
        | none => (.err400 .missingValue, st)
        | some jv =>
          match pyFloatJson jv with
          | none => (.err400 .valueNotNumeric, st)
          | some value =>
            match objGet kvs "timestamp" with
            | none => insertRow st now value
            | some jts =>
              if jsonFalsy jts then insertRow st now value
              else
                match jts with
                | .str ts =>
                  match parseTs ts with
                  | some t => insertRow st t value
                  | none => (.err400 .badTimestamp, st)
                | _ => (.serverError, st)
      | .str s => if pyStrContains s "value" then (.serverError, st) else (.err400 .missingValue, st)
      | .arr l => if l.any jsonIsValueStr then (.serverError, st) else (.err400 .missingValue, st)
      | _ => (.serverError, st)

/-- JSON body holding the same two optional string parameters a GET query
would carry, for comparing the two add endpoints. -/
def buildBody (v ts : Option String) : Json :=
  Json.obj ((match v with | some s => [("value", Json.str s)] | none => [])
    ++ (match ts with | some s => [("timestamp", Json.str s)] | none => []))

/-- Chronological key of a date-time: lexicographic on the six fields. -/
abbrev DTKey := Nat ×ₗ Nat ×ₗ Nat ×ₗ Nat ×ₗ Nat ×ₗ Nat

/-- Key extraction for ordering by timestamp. -/
def dtKey (t : DateTime) : DTKey :=
  toLex (t.year, toLex (t.month, toLex (t.day, toLex (t.hour, toLex (t.minute, t.second)))))

/-- Ordering key of a stored row.  Modelled from the spec: the store
returns rows sorted by the indexed timestamp column; rows sharing a
timestamp follow the index order, namely the id, in both directions, so
the effective key is the pair (timestamp, id). -/
def rowKey (m : Measurement) : DTKey ×ₗ Nat := toLex (dtKey m.timestamp, m.id)

/-- Boolean ascending comparison of rows. -/
def rowLe (a b : Measurement) : Bool := decide (rowKey a ≤ rowKey b)

/-- Boolean descending comparison of rows. -/
def rowGe (a b : Measurement) : Bool := rowLe b a

/-- Insert one element into a list sorted by r. -/
def insertLe (r : α → α → Bool) (x : α) : List α → List α
  | [] => [x]
  | y :: ys => if r x y then x :: y :: ys else y :: insertLe r x ys

/-- Insertion sort by r, the model of the ORDER BY of the store. -/
def isortBy (r : α → α → Bool) : List α → List α
  | [] => []
  | x :: xs => insertLe r x (isortBy r xs)

/-- SQL LIMIT as SQLite applies it.  Modelled from the spec: a negative
limit means no upper bound on the number of returned rows. -/
def sqlLimit (n : Int) (l : List α) : List α :=
  if n < 0 then l else l.take n.toNat

/-- Sorted full result of the listing query: sort descending exactly when
the order parameter equals desc; the parameter defaults to asc and every
other value takes the ascending branch (src/app.py line 146). -/
def sortedRows (st : Store) (order : Option String) : List Measurement :=
  if (match order with | some s => s | none => "asc") = "desc" then isortBy rowGe st.rows
  else isortBy rowLe st.rows

/-- Rows produced by the listing query of GET /api/measurements
(src/app.py lines 142-150): sort, then apply the limit when it is present
and nonzero (a zero limit is falsy in Python and skips the LIMIT clause). -/
def listRows (st : Store) (limit : Option Int) (order : Option String) : List Measurement :=
  match limit with
  | some n => if n = 0 then sortedRows st order else sqlLimit n (sortedRows st order)
  | none => sortedRows st order

/-- Serialization of one row in the list response. -/
def recOut (m : Measurement) : RecordOut := ⟨m.id, formatTs m.timestamp, m.value⟩

/-- Handler of GET /api/measurements: always a 200 JSON array. -/
def list_measurements (st : Store) (limit : Option Int) (order : Option String) : Response :=
  .okList ((listRows st limit order).map recOut)

/-- Handler of DELETE /api/measurements/id (src/app.py lines 156-161):
get_or_404 aborts with 404 when no row has the id, otherwise the row is
deleted and a 200 status object is returned. -/
def delete_measurement (st : Store) (i : Nat) : Response × Store :=
  match st.rows.find? (fun m => m.id == i) with
  | none => (.notFound, st)
  | some _ => (.okDeleted i, ⟨st.rows.eraseP (fun m => m.id == i), st.nextId⟩)

/-- One client operation against the service. -/
inductive Op where
  | addGet (now : DateTime) (v ts : Option String)
  | addPost (now : DateTime) (body : Option Json)
  | del (i : Nat)

/-- Apply one operation to the store. -/
def applyOp (st : Store) : Op → Response × Store
  | .addGet now v ts => add_measurement_via_get st now v ts
  | .addPost now body => create_measurement st now body
  | .del i => delete_measurement st i

/-- Run a sequence of operations, recording the id of every successfully
created measurement in order. -/
def runTrace (st : Store) : List Op → List Nat
  | [] => []
  | op :: rest =>
    match applyOp st op with
    | (.created rec, st2) => rec.id :: runTrace st2 rest
    | (_, st2) => runTrace st2 rest

/-- Sample wall-clock instant used by concrete instantiations. -/
def dtW : DateTime := ⟨2025, 1, 1, 0, 0, 0⟩

/-- Sample measurement with the earlier timestamp. -/
def mA : Measurement := ⟨1, dtW, "1.0"⟩

/-- Sample measurement with a later timestamp. -/
def mB : Measurement := ⟨2, ⟨2025, 1, 2, 0, 0, 0⟩, "2.0"⟩

/-- Sample store holding two rows with distinct timestamps. -/
def stAB : Store := ⟨[mA, mB], 3⟩

/-- Sample store holding two rows sharing one timestamp. -/
def stEq : Store := ⟨[⟨1, dtW, "1.0"⟩, ⟨2, dtW, "2.0"⟩], 3⟩

/-- Inserting into a list permutes consing onto it. -/
theorem insertLe_perm (r : α → α → Bool) (x : α) (l : List α) :
    List.Perm (insertLe r x l) (x :: l) := by
  induction l with
  | nil => simp [insertLe]
  | cons y ys ih =>
    simp only [insertLe]
    split
    · exact List.Perm.refl _
    · exact (ih.cons y).trans (List.Perm.swap x y ys)

/-- Insertion sort permutes its input. -/
theorem isortBy_perm (r : α → α → Bool) (l : List α) : List.Perm (isortBy r l) l := by
  induction l with
  | nil => exact List.Perm.refl _
  | cons x xs ih => exact (insertLe_perm r x (isortBy r xs)).trans (ih.cons x)

/-- Insertion keeps a list sorted, for a total transitive comparison. -/
theorem insertLe_sorted {r : α → α → Bool}
    (htot : ∀ a b, r a b = true ∨ r b a = true)
    (htrans : ∀ a b c, r a b = true → r b c = true → r a c = true)
    (x : α) {l : List α} (h : l.Pairwise (fun a b => r a b = true)) :
    (insertLe r x l).Pairwise (fun a b => r a b = true) := by
  induction l with
  | nil => simp [insertLe]
  | cons y ys ih =>
    rcases h with _ | ⟨hy, hys⟩
    simp only [insertLe]
    split
    next hxy =>
      refine List.Pairwise.cons ?_ (List.Pairwise.cons hy hys)
      intro z hz
      rcases List.mem_cons.mp hz with rfl | hz2
      · exact hxy
      · exact htrans x y z hxy (hy z hz2)
    next hxy =>
      have hxy2 : ¬ r x y = true := by simpa using hxy
      have hyx : r y x = true := (htot x y).resolve_left hxy2
      refine List.Pairwise.cons ?_ (ih hys)
      intro z hz
      have hz2 : z ∈ x :: ys := (insertLe_perm r x ys).mem_iff.mp hz
      rcases List.mem_cons.mp hz2 with rfl | hz3
      · exact hyx
      · exact hy z hz3

/-- Insertion sort sorts, for a total transitive comparison. -/
theorem isortBy_sorted {r : α → α → Bool}
    (htot : ∀ a b, r a b = true ∨ r b a = true)
    (htrans : ∀ a b c, r a b = true → r b c = true → r a c = true)
    (l : List α) : (isortBy r l).Pairwise (fun a b => r a b = true) := by
  induction l with
  | nil => exact List.Pairwise.nil
  | cons x xs ih => exact insertLe_sorted htot htrans x ih

/-- When the new element compares below nothing of the list, insertion
appends it at the end. -/
theorem insertLe_append_last {r : α → α → Bool} {x : α} :
    ∀ {l : List α}, (∀ z ∈ l, r x z = false) → insertLe r x l = l ++ [x] := by
  intro l
  induction l with
  | nil => intro _; rfl
  | cons y ys ih =>
    intro h
    have hy : r x y = false := h y (List.mem_cons_self y ys)
    simp only [insertLe, hy]
    simp [ih (fun z hz => h z (List.mem_cons_of_mem y hz))]

/-- When the new element compares below the last element, insertion into
the extended list keeps that last element in place. -/
theorem insertLe_append_keep {r : α → α → Bool} {x y : α} (hy : r x y = true) :
    ∀ (l : List α), insertLe r x (l ++ [y]) = insertLe r x l ++ [y] := by
  intro l
  induction l with
  | nil => simp [insertLe, hy]
  | cons z zs ih =>
    cases hxz : r x z with
    | true => simp [insertLe, hxz]
    | false => simp [insertLe, hxz, ih]

/-- Inserting with the flipped comparison into the reversed list mirrors
inserting into the sorted list, for elements never tied with the new one. -/
theorem insertLe_reverse {r : α → α → Bool}
    (htrans : ∀ a b c, r a b = true → r b c = true → r a c = true)
    {x : α} : ∀ {l : List α}, l.Pairwise (fun a b => r a b = true) →
    (∀ z ∈ l, r z x = !(r x z)) →
    insertLe (fun a b => r b a) x l.reverse = (insertLe r x l).reverse := by
  intro l
  induction l with
  | nil => intro _ _; rfl
  | cons y ys ih =>
    intro hsort hstrict
    rcases hsort with _ | ⟨hy, hys⟩
    cases hxy : r x y with
    | true =>
      have hstep : ∀ z ∈ ys.reverse ++ [y], (fun a b => r b a) x z = false := by
        intro z hz
        rcases List.mem_append.mp hz with hz1 | hz1
        · have hz2 : z ∈ ys := List.mem_reverse.mp hz1
          have hxz : r x z = true := htrans x y z hxy (hy z hz2)
          have hzx := hstrict z (List.mem_cons_of_mem y hz2)
          rw [hxz] at hzx
          simpa using hzx
        · have hz2 : z = y := List.mem_singleton.mp hz1
          subst hz2
          have hzx := hstrict z (List.mem_cons_self z ys)
          rw [hxy] at hzx
          simpa using hzx
      calc insertLe (fun a b => r b a) x (y :: ys).reverse
          = insertLe (fun a b => r b a) x (ys.reverse ++ [y]) := by rw [List.reverse_cons]
        _ = (ys.reverse ++ [y]) ++ [x] := insertLe_append_last hstep
        _ = (insertLe r x (y :: ys)).reverse := by simp [insertLe, hxy]
    | false =>
      have hyx : (fun a b => r b a) x y = true := by
        have hzx := hstrict y (List.mem_cons_self y ys)
        rw [hxy] at hzx
        simpa using hzx
      calc insertLe (fun a b => r b a) x (y :: ys).reverse
          = insertLe (fun a b => r b a) x (ys.reverse ++ [y]) := by rw [List.reverse_cons]
        _ = insertLe (fun a b => r b a) x ys.reverse ++ [y] :=
            insertLe_append_keep (r := fun a b => r b a) hyx ys.reverse
        _ = (insertLe r x ys).reverse ++ [y] := by
            rw [ih hys (fun z hz => hstrict z (List.mem_cons_of_mem y hz))]
        _ = (insertLe r x (y :: ys)).reverse := by simp [insertLe, hxy]

/-- Sorting by the flipped comparison reverses the sorted list, provided
no two distinct elements are tied. -/
theorem isortBy_reverse {r : α → α → Bool}
    (htot : ∀ a b, r a b = true ∨ r b a = true)
    (htrans : ∀ a b c, r a b = true → r b c = true → r a c = true) :
    ∀ {l : List α}, l.Pairwise (fun a b => r b a = !(r a b)) →
    isortBy (fun a b => r b a) l = (isortBy r l).reverse := by
  intro l
  induction l with
  | nil => intro _; rfl
  | cons x xs ih =>
    intro hp
    rcases hp with _ | ⟨hx, hxs⟩
    have h1 : isortBy (fun a b => r b a) (x :: xs)
        = insertLe (fun a b => r b a) x (isortBy (fun a b => r b a) xs) := rfl
    rw [h1, ih hxs]
    exact insertLe_reverse htrans (isortBy_sorted htot htrans xs)
      (fun z hz => hx z ((isortBy_perm r xs).mem_iff.mp hz))

/-- Row comparison is total. -/
theorem rowLe_total (a b : Measurement) : rowLe a b = true ∨ rowLe b a = true := by
  unfold rowLe
  rcases le_total (rowKey a) (rowKey b) with h | h
  · exact Or.inl (decide_eq_true h)
  · exact Or.inr (decide_eq_true h)

/-- Row comparison is transitive. -/
theorem rowLe_trans (a b c : Measurement) :
    rowLe a b = true → rowLe b c = true → rowLe a c = true := by
  unfold rowLe
  intro h1 h2
  exact decide_eq_true (le_trans (of_decide_eq_true h1) (of_decide_eq_true h2))

/-- Equal row keys force equal ids. -/
theorem rowKey_id {a b : Measurement} (h : rowKey a = rowKey b) : a.id = b.id :=
  congrArg (fun k => (ofLex k).2) h

/-- For rows with different keys, the flipped comparison is the negation. -/
theorem rowLe_flip_of_ne {a b : Measurement} (hne : rowKey a ≠ rowKey b) :
    rowLe b a = !(rowLe a b) := by
  unfold rowLe
  rcases le_total (rowKey a) (rowKey b) with h | h
  · have h2 : ¬ rowKey b ≤ rowKey a := fun hba => hne (le_antisymm h hba)
    rw [decide_eq_true h, decide_eq_false h2]
    rfl
  · by_cases h3 : rowKey a ≤ rowKey b
    · exact absurd (le_antisymm h3 h) hne
    · rw [decide_eq_true h, decide_eq_false h3]
      rfl

/-- Rows with pairwise distinct ids are never tied by the comparison. -/
theorem pairwise_strict_of_nodup {rows : List Measurement}
    (h : (rows.map (fun m => m.id)).Nodup) :
    rows.Pairwise (fun a b => rowLe b a = !(rowLe a b)) := by
  have h2 : rows.Pairwise (fun a b => a.id ≠ b.id) := List.pairwise_map.mp h
  exact h2.imp (fun hne => rowLe_flip_of_ne (fun hk => hne (rowKey_id hk)))

/-- Ascending row comparison projects to the timestamp key. -/
theorem rowLe_dtKey {a b : Measurement} (h : rowLe a b = true) :
    dtKey a.timestamp ≤ dtKey b.timestamp := by
  have h2 : rowKey a ≤ rowKey b := of_decide_eq_true h
  rcases (Prod.Lex.le_iff _ _).mp h2 with h3 | ⟨h3, _⟩
  · exact le_of_lt h3
  · exact le_of_eq h3

/-- The listing rows are always an initial segment of the full sorted
sequence (the whole of it when no positive limit applies). -/
theorem listRows_sublist (st : Store) (limit : Option Int) (order : Option String) :
    (listRows st limit order).Sublist (sortedRows st order) := by
  rcases limit with _ | n
  · exact List.Sublist.refl _
  · simp only [listRows]
    split
    · exact List.Sublist.refl _
    · simp only [sqlLimit]
      split
      · exact List.Sublist.refl _
      · exact List.take_sublist _ _

/-- Sorting does not change the number of rows. -/
theorem sortedRows_length (st : Store) (order : Option String) :
    (sortedRows st order).length = st.rows.length := by
  unfold sortedRows
  split
  · exact (isortBy_perm rowGe st.rows).length_eq
  · exact (isortBy_perm rowLe st.rows).length_eq

/-- Any order value other than desc takes the ascending branch. -/
theorem sortedRows_of_ne_desc (st : Store) (order : Option String)
    (h : order ≠ some "desc") : sortedRows st order = isortBy rowLe st.rows := by
  unfold sortedRows
  rcases order with _ | s
  · simp
  · have hs : s ≠ "desc" := fun he => h (by rw [he])
    simp [hs]

/-- Claim C3 (amended: the descending token is the literal desc, not
descending): the result is sorted descending by timestamp when the order
parameter equals desc; any other value of the parameter, including its
absence, yields exactly the ascending result, which is sorted ascending
by timestamp, and no order value ever produces an error response. -/
theorem order_param_desc_token (st : Store) (limit : Option Int) (order : Option String) :
    (order ≠ some "desc" → list_measurements st limit order = list_measurements st limit (some "asc"))
    ∧ (∃ recs, list_measurements st limit order = .okList recs)
    ∧ (order = some "desc" →
        (listRows st limit order).Pairwise (fun a b => dtKey b.timestamp ≤ dtKey a.timestamp))
    ∧ (order ≠ some "desc" →
        (listRows st limit order).Pairwise (fun a b => dtKey a.timestamp ≤ dtKey b.timestamp)) := by
  refine ⟨?_, ⟨_, rfl⟩, ?_, ?_⟩
  · intro h
    have he : sortedRows st order = sortedRows st (some "asc") := by
      rw [sortedRows_of_ne_desc st order h, sortedRows_of_ne_desc st (some "asc") (by simp)]
    unfold list_measurements listRows
    rw [he]
  · intro h
    subst h
    have hs : sortedRows st (some "desc") = isortBy rowGe st.rows := by
      unfold sortedRows
      simp
    have hp : (sortedRows st (some "desc")).Pairwise (fun a b => rowGe a b = true) := by
      rw [hs]
      exact isortBy_sorted (fun a b => rowLe_total b a) (fun a b c h1 h2 => rowLe_trans c b a h2 h1) st.rows
    have hp2 := hp.sublist (listRows_sublist st limit (some "desc"))
    exact hp2.imp (fun hab => rowLe_dtKey hab)
  · intro h
    have hs := sortedRows_of_ne_desc st order h
    have hp : (sortedRows st order).Pairwise (fun a b => rowLe a b = true) := by
      rw [hs]
      exact isortBy_sorted rowLe_total rowLe_trans st.rows
    have hp2 := hp.sublist (listRows_sublist st limit order)
    exact hp2.imp (fun hab => rowLe_dtKey hab)

/-- Counterexample to claim C3 as stated: with two rows of increasing
timestamps, the order value descending is not recognized; the result is
the ascending sequence, not sorted descending, while desc does produce
the descending sequence. -/
theorem order_descending_not_token :
    listRows stAB none (some "descending") = [mA, mB]
    ∧ ¬ (dtKey mB.timestamp ≤ dtKey mA.timestamp)
    ∧ listRows stAB none (some "desc") = [mB, mA] := by decide

/-- Claim C4: a positive limit N returns exactly the first
min(N, total) rows of the full sorted sequence; a zero or negative or
absent limit returns the full sorted sequence. -/
theorem limit_caps_results (st : Store) (order : Option String) (N : Int) :
    (listRows st (some N) order
      = if 0 < N then (listRows st none order).take N.toNat else listRows st none order)
    ∧ ((listRows st (some N) order).length
      = if 0 < N then min N.toNat st.rows.length else st.rows.length)
    ∧ (listRows st none order).length = st.rows.length := by
  have hfull : listRows st none order = sortedRows st order := rfl
  have hlen : (listRows st none order).length = st.rows.length := by
    rw [hfull, sortedRows_length]
  refine ⟨?_, ?_, hlen⟩
  · simp only [listRows, sqlLimit]
    rcases lt_trichotomy N 0 with hN | hN | hN
    · rw [if_neg (show ¬ N = 0 by omega), if_pos hN, if_neg (show ¬ 0 < N by omega)]
    · rw [if_pos hN, if_neg (by omega)]
    · rw [if_neg (show ¬ N = 0 by omega), if_neg (show ¬ N < 0 by omega), if_pos hN]
  · rcases lt_trichotomy N 0 with hN | hN | hN
    · have h1 : listRows st (some N) order = listRows st none order := by
        simp only [listRows, sqlLimit]
        rw [if_neg (by omega), if_pos hN]
      rw [h1, if_neg (by omega), hlen]
    · have h1 : listRows st (some N) order = listRows st none order := by
        simp only [listRows]
        rw [if_pos hN]
      rw [h1, if_neg (by omega), hlen]
    · have h1 : listRows st (some N) order = (listRows st none order).take N.toNat := by
        simp only [listRows, sqlLimit]
        rw [if_neg (by omega), if_neg (by omega)]
      rw [h1, if_pos hN, List.length_take, hlen]

/-- Claim C5: for a store whose rows carry pairwise distinct ids (an
invariant the store maintains), listing descending returns exactly the
reverse of listing ascending, also in the presence of equal timestamps. -/
theorem desc_is_reverse_of_asc (st : Store)
    (h : (st.rows.map (fun m => m.id)).Nodup) :
    listRows st none (some "desc") = (listRows st none (some "asc")).reverse
    ∧ list_measurements st none (some "desc")
      = .okList (((listRows st none (some "asc")).map recOut).reverse) := by
  have h1 : listRows st none (some "desc") = isortBy rowGe st.rows := by
    simp [listRows, sortedRows]
  have h2 : listRows st none (some "asc") = isortBy rowLe st.rows := by
    simp [listRows, sortedRows]
  have h3 : isortBy rowGe st.rows = (isortBy rowLe st.rows).reverse :=
    isortBy_reverse rowLe_total rowLe_trans (pairwise_strict_of_nodup h)
  constructor
  · rw [h1, h2, h3]
  · unfold list_measurements
    rw [h1, h2, h3, List.map_reverse]

/-- Witness for claim C5 at a concrete store with two rows sharing one
timestamp. -/
theorem desc_is_reverse_of_asc_witness :
    listRows stEq none (some "desc") = (listRows stEq none (some "asc")).reverse
    ∧ list_measurements stEq none (some "desc")
      = .okList (((listRows stEq none (some "asc")).map recOut).reverse) :=
  desc_is_reverse_of_asc stEq (by decide)

/-- Witness for claim C3 at a concrete store and the unrecognized order
value descending. -/
theorem order_param_desc_token_witness :
    list_measurements stAB none (some "descending") = list_measurements stAB none (some "asc")
    ∧ (∃ recs, list_measurements stAB none (some "descending") = .okList recs) :=
  ⟨(order_param_desc_token stAB none (some "descending")).1 (by decide),
   (order_param_desc_token stAB none (some "descending")).2.1⟩

/-- Erasing a present match shortens the list by exactly one. -/
theorem erasePLen {α} {p : α → Bool} :
    ∀ {l : List α}, (∃ a ∈ l, p a = true) → (l.eraseP p).length + 1 = l.length := by
  intro l
  induction l with
  | nil =>
    intro h
    rcases h with ⟨a, ha, _⟩
    simp at ha
  | cons y ys ih =>
    intro h
    cases hy : p y with
    | true => simp [List.eraseP_cons, hy]
    | false =>
      have h2 : ∃ a ∈ ys, p a = true := by
        rcases h with ⟨a, ha, hpa⟩
        rcases List.mem_cons.mp ha with rfl | ha2
        · rw [hy] at hpa
          exact absurd hpa (by simp)
        · exact ⟨a, ha2, hpa⟩
      have h3 := ih h2
      simp [List.eraseP_cons, hy]
      omega

/-- After erasing the row with the target id from a list of rows with
pairwise distinct ids, no remaining row carries that id. -/
theorem eraseP_id_free {i : Nat} :
    ∀ {rows : List Measurement}, rows.Pairwise (fun a b => a.id ≠ b.id) →
    ∀ m2 ∈ rows.eraseP (fun m => m.id == i), m2.id ≠ i := by
  intro rows
  induction rows with
  | nil =>
    intro _ m2 hm2
    simp [List.eraseP_nil] at hm2
  | cons y ys ih =>
    intro hp m2 hm2
    rcases hp with _ | ⟨hy, hys⟩
    cases hYi : (y.id == i) with
    | true =>
      simp only [List.eraseP_cons, hYi, cond_true] at hm2
      have hyi : y.id = i := by simpa using hYi
      exact fun he => (hy m2 hm2) (hyi.trans he.symm)
    | false =>
      simp only [List.eraseP_cons, hYi, cond_false] at hm2
      rcases List.mem_cons.mp hm2 with rfl | hm3
      · have hne : m2.id ≠ i := by simpa using hYi
        exact hne
      · exact ih hys m2 hm3

/-- Claim C8: deleting a nonexistent id yields the not-found response and
leaves the store untouched; deleting an existing id responds with the
deleted status and the id, removes exactly one row, keeps the id counter,
and leaves no row carrying the deleted id. -/
theorem delete_semantics (st : Store) (i : Nat) :
    ((∀ m ∈ st.rows, m.id ≠ i) → delete_measurement st i = (.notFound, st))
    ∧ (∀ m, m ∈ st.rows → m.id = i → (st.rows.map (fun x => x.id)).Nodup →
        (delete_measurement st i).1 = .okDeleted i
        ∧ ((delete_measurement st i).2).rows.length + 1 = st.rows.length
        ∧ ((delete_measurement st i).2).nextId = st.nextId
        ∧ ∀ m2 ∈ ((delete_measurement st i).2).rows, m2.id ≠ i) := by
  constructor
  · intro h
    have hf : st.rows.find? (fun m => m.id == i) = none := by
      rw [List.find?_eq_none]
      intro m hm
      simpa using h m hm
    simp [delete_measurement, hf]
  · intro m hm hmi hnd
    rcases hfind : st.rows.find? (fun m => m.id == i) with _ | m0
    · exfalso
      have := List.find?_eq_none.mp hfind m hm
      simp [hmi] at this
    · refine ⟨by simp [delete_measurement, hfind], ?_, by simp [delete_measurement, hfind], ?_⟩
      · have h2 := erasePLen (l := st.rows) (p := fun m => m.id == i) ⟨m, hm, by simp [hmi]⟩
        simpa [delete_measurement, hfind] using h2
      · intro m2 hm2
        have hpw : st.rows.Pairwise (fun a b => a.id ≠ b.id) := List.pairwise_map.mp hnd
        have hmem : m2 ∈ st.rows.eraseP (fun m => m.id == i) := by
          simpa [delete_measurement, hfind] using hm2
        exact eraseP_id_free hpw m2 hmem

/-- Witness for claim C8 at a concrete two-row store. -/
theorem delete_semantics_witness :
    delete_measurement stAB 7 = (.notFound, stAB)
    ∧ (delete_measurement stAB 1).1 = .okDeleted 1
    ∧ ((delete_measurement stAB 1).2).rows.length + 1 = stAB.rows.length
    ∧ ((delete_measurement stAB 1).2).nextId = stAB.nextId := by
  refine ⟨(delete_semantics stAB 7).1 (by decide), ?_, ?_, ?_⟩
  · exact ((delete_semantics stAB 1).2 mA (by decide) (by decide) (by decide)).1
  · exact ((delete_semantics stAB 1).2 mA (by decide) (by decide) (by decide)).2.1
  · exact ((delete_semantics stAB 1).2 mA (by decide) (by decide) (by decide)).2.2.1

/-- Claim C10: a POST body decoding to a falsy JSON document answers the
invalid-or-empty-JSON error, indistinguishable from a body that failed to
decode, distinct from the missing-value error, and persists nothing. -/
theorem post_falsy_body (st : Store) (now : DateTime) (j : Json) (h : jsonFalsy j = true) :
    create_measurement st now (some j) = (.err400 .emptyJson, st)
    ∧ create_measurement st now (some j) = create_measurement st now none
    ∧ (create_measurement st now (some j)).2 = st
    ∧ (Response.err400 .emptyJson ≠ Response.err400 .missingValue) := by
  have h1 : create_measurement st now (some j) = (.err400 .emptyJson, st) := by
    simp [create_measurement, h]
  exact ⟨h1, by rw [h1]; rfl, by rw [h1], by decide⟩

/-- Witness for claim C10 at the empty JSON object. -/
theorem post_falsy_body_witness :
    create_measurement initStore dtW (some (Json.obj [])) = (.err400 .emptyJson, initStore)
    ∧ create_measurement initStore dtW (some (Json.obj []))
      = create_measurement initStore dtW none :=
  ⟨(post_falsy_body initStore dtW (Json.obj []) (by decide)).1,
   (post_falsy_body initStore dtW (Json.obj []) (by decide)).2.1⟩

/-- Counterexample to claim C9 as stated: on the POST endpoint with no
value field, an empty-string timestamp is not treated exactly like an
absent one — the body with only the empty timestamp gets the
missing-value error while the fully empty body gets the empty-JSON error
(neither being a timestamp-format error). -/
theorem empty_ts_counterexample :
    create_measurement initStore dtW (some (buildBody none (some "")))
      = (.err400 .missingValue, initStore)
    ∧ create_measurement initStore dtW (some (buildBody none none))
      = (.err400 .emptyJson, initStore)
    ∧ (Response.err400 .missingValue ≠ Response.err400 .emptyJson)
    ∧ (Response.err400 .missingValue ≠ Response.err400 .badTimestamp) := by decide

/-- Claim C9 (amended: the POST endpoint with no value field reports
missing value for the empty-timestamp body but empty JSON for the empty
body): a present empty-string timestamp never produces the
timestamp-format error; on the GET endpoint it is treated exactly like an
absent timestamp, likewise on the POST endpoint whenever the value field
is present, and an insertion that does happen uses the current wall-clock
time. -/
theorem empty_ts_like_absent (st : Store) (now : DateTime) (v : Option String) :
    add_measurement_via_get st now v (some "") = add_measurement_via_get st now v none
    ∧ (∀ s, create_measurement st now (some (buildBody (some s) (some "")))
        = create_measurement st now (some (buildBody (some s) none)))
    ∧ (create_measurement st now (some (buildBody none (some "")))).1 = .err400 .missingValue
    ∧ (∀ s x, pyFloat s = some x →
        (add_measurement_via_get st now (some s) (some "")).1
          = .created ⟨st.nextId, formatTs now, x⟩) := by
  have hk1 : (("timestamp" : String) == "value") = false := by decide
  have hk2 : (("value" : String) == "value") = true := by decide
  have hk3 : (("timestamp" : String) == "timestamp") = true := by decide
  refine ⟨?_, ?_, ?_, ?_⟩
  · rcases v with _ | s
    · rfl
    · cases hf : pyFloat s <;> simp [add_measurement_via_get, hf]
  · intro s
    cases hf : pyFloat s <;>
      simp [create_measurement, buildBody, objGet, jsonFalsy, pyFloatJson, hf, hk1, hk2, hk3]
  · simp [create_measurement, buildBody, objGet, jsonFalsy, hk1]
  · intro s x hx
    simp [add_measurement_via_get, hx, insertRow]

/-- Witness for claim C9 at a concrete valid value. -/
theorem empty_ts_like_absent_witness :
    add_measurement_via_get initStore dtW (some "25.7") (some "")
      = add_measurement_via_get initStore dtW (some "25.7") none
    ∧ (add_measurement_via_get initStore dtW (some "25.7") (some "")).1
      = .created ⟨initStore.nextId, formatTs dtW, "25.7"⟩ :=
  ⟨(empty_ts_like_absent initStore dtW (some "25.7")).1,
   (empty_ts_like_absent initStore dtW (some "25.7")).2.2.2 "25.7" "25.7" (by decide)⟩

/-- Counterexample to claim C2 as stated: when both parameters are
absent, the GET endpoint answers the missing-value error while the POST
endpoint, whose body is then the empty JSON object, answers the
empty-JSON error — a different validation class. -/
theorem get_post_differ_both_absent :
    add_measurement_via_get initStore dtW none none = (.err400 .missingValue, initStore)
    ∧ create_measurement initStore dtW (some (buildBody none none))
      = (.err400 .emptyJson, initStore)
    ∧ (ErrClass.missingValue ≠ ErrClass.emptyJson) := by decide

/-- Claim C2 (amended: except when both parameters are absent, where the
POST body is the empty object and yields the empty-JSON error instead of
the missing-value error): for every pair of optional string parameters of
which at least one is present, submitting them as GET query parameters
and as a POST JSON body produces identical outcomes — the same stored
row and created response, or the same validation error class. -/
theorem get_post_agree (st : Store) (now : DateTime) (v ts : Option String)
    (h : v ≠ none ∨ ts ≠ none) :
    create_measurement st now (some (buildBody v ts)) = add_measurement_via_get st now v ts := by
  have hk1 : (("timestamp" : String) == "value") = false := by decide
  have hk2 : (("value" : String) == "value") = true := by decide
  have hk3 : (("timestamp" : String) == "timestamp") = true := by decide
  rcases v with _ | s
  · rcases ts with _ | t
    · rcases h with h | h <;> simp at h
    · simp [create_measurement, add_measurement_via_get, buildBody, objGet, jsonFalsy, hk1]
  · rcases ts with _ | t
    · cases hf : pyFloat s <;>
        simp [create_measurement, add_measurement_via_get, buildBody, objGet, jsonFalsy,
          pyFloatJson, hf, hk2]
    · cases hf : pyFloat s with
      | none =>
        simp [create_measurement, add_measurement_via_get, buildBody, objGet, jsonFalsy,
          pyFloatJson, hf, hk1, hk2, hk3]
      | some val =>
        by_cases ht : t = ""
        · subst ht
          simp [create_measurement, add_measurement_via_get, buildBody, objGet, jsonFalsy,
            pyFloatJson, hf, hk1, hk2, hk3]
        · cases hp : parseTs t <;>
            simp [create_measurement, add_measurement_via_get, buildBody, objGet, jsonFalsy,
              pyFloatJson, hf, hk1, hk2, hk3, ht, hp]

/-- Witness for claim C2 at a concrete value and timestamp. -/
theorem get_post_agree_witness :
    create_measurement initStore dtW (some (buildBody (some "25.7") (some "2025-12-05 12:34:56")))
      = add_measurement_via_get initStore dtW (some "25.7") (some "2025-12-05 12:34:56") :=
  get_post_agree initStore dtW (some "25.7") (some "2025-12-05 12:34:56") (Or.inl (by decide))

/-- Claim C6: a present (nonempty, cf. claim C9) timestamp is parsed by
trying the space-separated format first and the T-separated format
second, and when neither format matches, both add endpoints answer the
invalid-timestamp-format error with the store unchanged, persisting no
row. -/
theorem ts_formats_order (st : Store) (now : DateTime) (v ts : String) :
    (∀ t, strptimeF1 ts = some t → parseTs ts = some t)
    ∧ (strptimeF1 ts = none → parseTs ts = strptimeF2 ts)
    ∧ (∀ x, pyFloat v = some x → parseTs ts = none → ts ≠ "" →
        add_measurement_via_get st now (some v) (some ts) = (.err400 .badTimestamp, st)
        ∧ create_measurement st now (some (buildBody (some v) (some ts)))
          = (.err400 .badTimestamp, st)) := by
  have hk1 : (("timestamp" : String) == "value") = false := by decide
  have hk2 : (("value" : String) == "value") = true := by decide
  have hk3 : (("timestamp" : String) == "timestamp") = true := by decide
  refine ⟨?_, ?_, ?_⟩
  · intro t h
    simp [parseTs, h]
  · intro h
    simp [parseTs, h]
  · intro x hx hp hts
    constructor
    · simp [add_measurement_via_get, hx, hts, hp]
    · simp [create_measurement, buildBody, objGet, jsonFalsy, pyFloatJson, hx, hp,
        hk1, hk2, hk3, hts]

/-- Witness for claim C6: a string in the first format parses, and a
string matching neither format is rejected by both endpoints. -/
theorem ts_formats_order_witness :
    parseTs "2025-12-05 12:34:56" = some ⟨2025, 12, 5, 12, 34, 56⟩
    ∧ add_measurement_via_get initStore dtW (some "25.7") (some "2025/12/05")
      = (.err400 .badTimestamp, initStore)
    ∧ create_measurement initStore dtW (some (buildBody (some "25.7") (some "2025/12/05")))
      = (.err400 .badTimestamp, initStore) := by
  have h1 := (ts_formats_order initStore dtW "25.7" "2025-12-05 12:34:56").1
    ⟨2025, 12, 5, 12, 34, 56⟩ (by decide)
  have h2 := (ts_formats_order initStore dtW "25.7" "2025/12/05").2.2 "25.7"
    (by decide) (by decide) (by decide)
  exact ⟨h1, h2.1, h2.2⟩

/-- Claim C7: inserting with an explicit timestamp accepted in either
format responds with the created record whose timestamp field is the
canonical rendering of the parsed timestamp, and listing afterwards
contains exactly that record. -/
theorem insert_roundtrip (st : Store) (now : DateTime) (v x ts : String) (t : DateTime)
    (hx : pyFloat v = some x) (ht : parseTs ts = some t) :
    (add_measurement_via_get st now (some v) (some ts)).1
      = .created ⟨st.nextId, formatTs t, x⟩
    ∧ (⟨st.nextId, formatTs t, x⟩ : RecordOut)
        ∈ (listRows (add_measurement_via_get st now (some v) (some ts)).2 none none).map recOut := by
  have hne : ts ≠ "" := by
    intro he
    have h0 : parseTs "" = none := rfl
    rw [he, h0] at ht
    exact Option.noConfusion ht
  have hstep : add_measurement_via_get st now (some v) (some ts) = insertRow st t x := by
    simp [add_measurement_via_get, hx, hne, ht]
  rw [hstep]
  refine ⟨rfl, ?_⟩
  have hmem : (⟨st.nextId, t, x⟩ : Measurement) ∈ listRows (insertRow st t x).2 none none := by
    have he : listRows (insertRow st t x).2 none none
        = isortBy rowLe (st.rows ++ [⟨st.nextId, t, x⟩]) := by
      simp [listRows, sortedRows, insertRow]
    rw [he]
    exact ((isortBy_perm rowLe _).mem_iff).mpr (by simp)
  have h2 := List.mem_map_of_mem recOut hmem
  simpa [recOut] using h2

/-- Witness for claim C7 at a concrete T-separated timestamp. -/
theorem insert_roundtrip_witness :
    (add_measurement_via_get initStore dtW (some "25.7") (some "2025-12-05T12:34:56")).1
      = .created ⟨initStore.nextId, formatTs ⟨2025, 12, 5, 12, 34, 56⟩, "25.7"⟩
    ∧ (⟨initStore.nextId, formatTs ⟨2025, 12, 5, 12, 34, 56⟩, "25.7"⟩ : RecordOut)
        ∈ (listRows (add_measurement_via_get initStore dtW (some "25.7")
            (some "2025-12-05T12:34:56")).2 none none).map recOut :=
  insert_roundtrip initStore dtW "25.7" "25.7" "2025-12-05T12:34:56"
    ⟨2025, 12, 5, 12, 34, 56⟩ (by decide) (by decide)

/-- Every GET add outcome is either an insertion or a 400 error leaving
the store untouched. -/
theorem add_get_shape (st : Store) (now : DateTime) (v ts : Option String) :
    (∃ t val, add_measurement_via_get st now v ts = insertRow st t val)
    ∨ (∃ cls, add_measurement_via_get st now v ts = (.err400 cls, st)) := by
  rcases v with _ | s
  · exact Or.inr ⟨.missingValue, rfl⟩
  · cases hf : pyFloat s with
    | none => exact Or.inr ⟨.valueNotNumeric, by simp [add_measurement_via_get, hf]⟩
    | some value =>
      rcases ts with _ | t
      · exact Or.inl ⟨now, value, by simp [add_measurement_via_get, hf]⟩
      · by_cases ht : t = ""
        · subst ht
          exact Or.inl ⟨now, value, by simp [add_measurement_via_get, hf]⟩
        · cases hp : parseTs t with
          | some t2 =>
            exact Or.inl ⟨t2, value, by simp [add_measurement_via_get, hf, ht, hp]⟩
          | none =>
            exact Or.inr ⟨.badTimestamp, by simp [add_measurement_via_get, hf, ht, hp]⟩

/-- Every POST add outcome is an insertion, a 400 error, or an uncaught
TypeError, the latter two leaving the store untouched. -/
theorem create_shape (st : Store) (now : DateTime) (body : Option Json) :
    (∃ t val, create_measurement st now body = insertRow st t val)
    ∨ (∃ cls, create_measurement st now body = (.err400 cls, st))
    ∨ create_measurement st now body = (.serverError, st) := by
  rcases body with _ | data
  · exact Or.inr (Or.inl ⟨.emptyJson, rfl⟩)
  · cases hfy : jsonFalsy data with
    | true => exact Or.inr (Or.inl ⟨.emptyJson, by simp [create_measurement, hfy]⟩)
    | false =>
      rcases data with _ | b | n | s | l | kvs
      · simp [jsonFalsy] at hfy
      · exact Or.inr (Or.inr (by simp [create_measurement, hfy]))
      · exact Or.inr (Or.inr (by simp [create_measurement, hfy]))
      · cases hc : pyStrContains s "value" with
        | true => exact Or.inr (Or.inr (by simp [create_measurement, hfy, hc]))
        | false => exact Or.inr (Or.inl ⟨.missingValue, by simp [create_measurement, hfy, hc]⟩)
      · cases hc : l.any jsonIsValueStr with
        | true => exact Or.inr (Or.inr (by simp [create_measurement, hfy, hc]))
        | false => exact Or.inr (Or.inl ⟨.missingValue, by simp [create_measurement, hfy, hc]⟩)
      · cases hv : objGet kvs "value" with
        | none => exact Or.inr (Or.inl ⟨.missingValue, by simp [create_measurement, hfy, hv]⟩)
        | some jv =>
          cases hfj : pyFloatJson jv with
          | none =>
            exact Or.inr (Or.inl ⟨.valueNotNumeric, by simp [create_measurement, hfy, hv, hfj]⟩)
          | some value =>
            cases hts : objGet kvs "timestamp" with
            | none =>
              exact Or.inl ⟨now, value, by simp [create_measurement, hfy, hv, hfj, hts]⟩
            | some jts =>
              cases hfy2 : jsonFalsy jts with
              | true =>
                exact Or.inl ⟨now, value, by simp [create_measurement, hfy, hv, hfj, hts, hfy2]⟩
              | false =>
                rcases jts with _ | b2 | n2 | s2 | l2 | kvs2
                · simp [jsonFalsy] at hfy2
                · exact Or.inr (Or.inr (by simp [create_measurement, hfy, hv, hfj, hts, hfy2]))
                · exact Or.inr (Or.inr (by simp [create_measurement, hfy, hv, hfj, hts, hfy2]))
                · cases hp : parseTs s2 with
                  | some t2 =>
                    exact Or.inl ⟨t2, value,
                      by simp [create_measurement, hfy, hv, hfj, hts, hfy2, hp]⟩
                  | none =>
                    exact Or.inr (Or.inl ⟨.badTimestamp,
                      by simp [create_measurement, hfy, hv, hfj, hts, hfy2, hp]⟩)
                · exact Or.inr (Or.inr (by simp [create_measurement, hfy, hv, hfj, hts, hfy2]))
                · exact Or.inr (Or.inr (by simp [create_measurement, hfy, hv, hfj, hts, hfy2]))

/-- Every delete outcome is not-found or a removal keeping the counter. -/
theorem delete_shape (st : Store) (i : Nat) :
    delete_measurement st i = (.notFound, st)
    ∨ (∃ l, delete_measurement st i = (.okDeleted i, ⟨l, st.nextId⟩)) := by
  cases hf : st.rows.find? (fun m => m.id == i) with
  | none => exact Or.inl (by simp [delete_measurement, hf])
  | some m0 =>
    exact Or.inr ⟨st.rows.eraseP (fun m => m.id == i), by simp [delete_measurement, hf]⟩

/-- Every operation either performs the modelled insertion or neither
creates a record nor moves the id counter. -/
theorem applyOp_shape (st : Store) (op : Op) :
    (∃ t val, applyOp st op = insertRow st t val)
    ∨ ((applyOp st op).2.nextId = st.nextId
        ∧ ∀ rec, (applyOp st op).1 ≠ Response.created rec) := by
  rcases op with ⟨now, v, ts⟩ | ⟨now, body⟩ | i
  · rcases add_get_shape st now v ts with ⟨t, val, h⟩ | ⟨cls, h⟩
    · exact Or.inl ⟨t, val, by simp only [applyOp]; exact h⟩
    · refine Or.inr ?_
      simp only [applyOp, h]
      exact ⟨by trivial, fun rec hr => Response.noConfusion hr⟩
  · rcases create_shape st now body with ⟨t, val, h⟩ | ⟨cls, h⟩ | h
    · exact Or.inl ⟨t, val, by simp only [applyOp]; exact h⟩
    · refine Or.inr ?_
      simp only [applyOp, h]
      exact ⟨by trivial, fun rec hr => Response.noConfusion hr⟩
    · refine Or.inr ?_
      simp only [applyOp, h]
      exact ⟨by trivial, fun rec hr => Response.noConfusion hr⟩
  · rcases delete_shape st i with h | ⟨l, h⟩
    · refine Or.inr ?_
      simp only [applyOp, h]
      exact ⟨by trivial, fun rec hr => Response.noConfusion hr⟩
    · refine Or.inr ?_
      simp only [applyOp, h]
      exact ⟨by trivial, fun rec hr => Response.noConfusion hr⟩

/-- Along any run, every recorded id is at least the current counter, and
the recorded ids strictly increase. -/
theorem runTrace_spec : ∀ (ops : List Op) (st : Store),
    (∀ i ∈ runTrace st ops, st.nextId ≤ i)
    ∧ (runTrace st ops).Pairwise (· < ·) := by
  intro ops
  induction ops with
  | nil =>
    intro st
    constructor
    · intro i hi
      simp [runTrace] at hi
    · simp [runTrace]
  | cons op rest ih =>
    intro st
    rcases applyOp_shape st op with ⟨t, val, h⟩ | ⟨hnid, hnc⟩
    · have h1 : runTrace st (op :: rest)
          = st.nextId :: runTrace ⟨st.rows ++ [⟨st.nextId, t, val⟩], st.nextId + 1⟩ rest := by
        simp only [runTrace, h, insertRow]
      rw [h1]
      have hbd := (ih ⟨st.rows ++ [⟨st.nextId, t, val⟩], st.nextId + 1⟩).1
      have hpw := (ih ⟨st.rows ++ [⟨st.nextId, t, val⟩], st.nextId + 1⟩).2
      constructor
      · intro i hi
        rcases List.mem_cons.mp hi with rfl | hi2
        · exact le_refl _
        · have h2 : st.nextId + 1 ≤ i := hbd i hi2
          omega
      · refine List.Pairwise.cons ?_ hpw
        intro j hj
        have h2 : st.nextId + 1 ≤ j := hbd j hj
        omega
    · have h1 : runTrace st (op :: rest) = runTrace (applyOp st op).2 rest := by
        rcases happ : applyOp st op with ⟨resp, st2⟩
        simp only [runTrace, happ]
        cases resp
        case created rec =>
          exfalso
          exact hnc rec (by rw [happ])
        all_goals rfl
      rw [h1]
      have hbd := (ih (applyOp st op).2).1
      have hpw := (ih (applyOp st op).2).2
      constructor
      · intro i hi
        have h2 := hbd i hi
        rw [hnid] at h2
        exact h2
      · exact hpw

/-- Claim C1: along every sequence of add and delete operations started
on the fresh store, successfully inserted measurements receive strictly
increasing ids — each new id exceeds every id assigned before it, also
after deletions, and no id is ever reused. -/
theorem ids_strictly_increase (ops : List Op) :
    (runTrace initStore ops).Pairwise (· < ·) :=
  (runTrace_spec ops initStore).2
